import Mathlib

/-!
Verification of the shape-aligner polygon engine.

The Python sources (`polygon.py`, `shape.py`) are shallowly embedded here:
points are pairs of rationals (the idealisation of the floating-point
coordinates), a polygon is its ordered vertex list, and every method of the
source becomes a Lean function over that state.  The external clipping
capability (pyclipper) is abstracted as a function parameter, per the spec's
"Intersection Gateway" contract.
-/

namespace ShapeAligner

/-- A 2-D point: the `[x, y]` rows of the numpy point matrix. -/
abbrev Point := ℚ × ℚ

/-- A polygon is its ordered vertex list (`self._points_matrix`). -/
abbrev Polygon := List Point

/-- `numpy.roll(v, 1)`: the last entry moves to the front. -/
def roll1 {α : Type} (l : List α) : List α :=
  match l.getLast? with
  | none => []
  | some a => a :: l.dropLast

/-- `numpy.dot` of two coordinate vectors. -/
def dotL (a b : List ℚ) : ℚ :=
  (List.zipWith (· * ·) a b).sum

namespace Polygon

/-- `Polygon.__init__`: stores the given point list as the state, unchanged
(`numpy.array(points)` performs no validation and no normalisation). -/
def init (points : List Point) : Polygon := points

/-- `Polygon._get_point_count`. -/
def getPointCount (P : Polygon) : ℕ := P.length

/-- `Polygon._get_point_sum`: per-axis sum of all vertices. -/
def getPointSum (P : Polygon) : Point :=
  ((P.map Prod.fst).sum, (P.map Prod.snd).sum)

/-- `Polygon.get_centroid_point`: point sum divided per axis by the count.
(Python raises on an empty polygon; `ℚ` division by zero returns 0 instead,
and every claim below concerns non-empty polygons.) -/
def getCentroidPoint (P : Polygon) : Point :=
  ((getPointSum P).1 / (getPointCount P : ℚ), (getPointSum P).2 / (getPointCount P : ℚ))

/-- Per-axis minimum of the vertex list (`self._points_matrix.min(axis=0)`);
the Python call raises on an empty matrix, modelled as `(0, 0)` there. -/
def getPointMin (P : Polygon) : Point :=
  match P with
  | [] => (0, 0)
  | p :: rest =>
    (rest.foldl (fun m q => min m q.1) p.1, rest.foldl (fun m q => min m q.2) p.2)

/-- `Polygon.move_to_quadrant_one`: per axis, if the minimum coordinate is
negative add its absolute value to every vertex, else leave that axis alone. -/
def moveToQuadrantOne (P : Polygon) : Polygon :=
  let minimums := getPointMin P
  let adjustment : Point :=
    (if minimums.1 >= 0 then 0 else -minimums.1,
     if minimums.2 >= 0 then 0 else -minimums.2)
  P.map (fun p => (p.1 + adjustment.1, p.2 + adjustment.2))

/-- `Polygon._rotation_result_same_as_current_state`: Python's
`degrees % 360 == 0`, which holds exactly when `degrees` is an integer
multiple of 360, i.e. when `degrees / 360` is an integer. -/
def rotationResultSameAsCurrentState (degrees : ℚ) : Bool :=
  (degrees / 360).den == 1

/-- `Polygon._apply_rotation` followed by `_get_rotated_points`: subtract the
centroid, right-multiply by the clockwise rotation matrix
`[[c, s], [-s, c]]`, add the centroid back.  The source computes
`c = cos(radians(degrees))` and `s = sin(radians(degrees))` in floating
point; the embedding abstracts those two transcendental values as the
parameters `c` and `s` (the claims below hold for every value of them). -/
def getRotatedPoints (P : Polygon) (c s : ℚ) : Polygon :=
  let centroid := getCentroidPoint P
  P.map (fun p =>
    let dx := p.1 - centroid.1
    let dy := p.2 - centroid.2
    (dx * c - dy * s + centroid.1, dx * s + dy * c + centroid.2))

/-- `Polygon.rotate`: early return when `degrees % 360 == 0`, otherwise apply
the rotation matrix about the centroid and re-normalise to quadrant one. -/
def rotate (P : Polygon) (degrees c s : ℚ) : Polygon :=
  if rotationResultSameAsCurrentState degrees then P
  else moveToQuadrantOne (getRotatedPoints P c s)

/-- `numpy.flip(m)` with no axis argument flips the n×2 point matrix along
every axis: the row order is reversed AND the two columns are exchanged, so
each vertex `(x, y)` becomes `(y, x)`. -/
def numpyFlip (P : Polygon) : Polygon :=
  P.reverse.map Prod.swap

/-- `Polygon.flip`: `rotate(-90)`, then `numpy.flip` of the point matrix,
then subtract the centroid of the flipped matrix from every vertex, then
re-normalise to quadrant one.  `c`, `s` stand for the floating-point
`cos(radians(-90))`, `sin(radians(-90))` used inside the rotate call. -/
def flip (P : Polygon) (c s : ℚ) : Polygon :=
  let rotated := rotate P (-90) c s
  let flipped := numpyFlip rotated
  let centroid := getCentroidPoint flipped
  moveToQuadrantOne (flipped.map (fun p => (p.1 - centroid.1, p.2 - centroid.2)))

/-- `Polygon.area`: unpack the matrix columns into `x`, `y`, compute
`0.5 * (dot(x, roll(y, 1)) - dot(y, roll(x, 1)))` and return its absolute
value.  (Python's `zip(*points)` raises on an empty list; the claims below
concern non-empty polygons only.) -/
def area (P : Polygon) : ℚ :=
  let x := P.map Prod.fst
  let y := P.map Prod.snd
  |(1 / 2 : ℚ) * (dotL x (roll1 y) - dotL y (roll1 x))|

end Polygon

namespace Shape

/-- `Shape._move_to_quadrant_one` is textually the same computation as
`Polygon.move_to_quadrant_one`. -/
def moveToQuadrantOne (P : Polygon) : Polygon :=
  let minimums := Polygon.getPointMin P
  let adjustment : Point :=
    (if minimums.1 >= 0 then 0 else -minimums.1,
     if minimums.2 >= 0 then 0 else -minimums.2)
  P.map (fun p => (p.1 + adjustment.1, p.2 + adjustment.2))

/-- `Shape.__init__` (src/shape.py): stores the point list and immediately
normalises it to quadrant one (unlike `Polygon.__init__`). -/
def init (points : List Point) : Polygon :=
  moveToQuadrantOne points

/-- `Shape.rotate` is textually the same computation as `Polygon.rotate`. -/
def rotate (P : Polygon) (degrees c s : ℚ) : Polygon :=
  if Polygon.rotationResultSameAsCurrentState degrees then P
  else moveToQuadrantOne (Polygon.getRotatedPoints P c s)

/-- `Shape.flip` is textually the same computation as `Polygon.flip`. -/
def flip (P : Polygon) (c s : ℚ) : Polygon :=
  let rotated := rotate P (-90) c s
  let flipped := Polygon.numpyFlip rotated
  let centroid := Polygon.getCentroidPoint flipped
  moveToQuadrantOne (flipped.map (fun p => (p.1 - centroid.1, p.2 - centroid.2)))

end Shape

/-- A mutating operation of the public interface shared by `Shape` and
`Polygon`: a `rotate(degrees)` call or a `flip()` call.  `c` and `s` stand
for the floating-point cosine/sine values the call computes (identical
values arise in both classes since the formulas are identical). -/
inductive GeomOp : Type
  | rot (degrees c s : ℚ)
  | flp (c s : ℚ)

/-- Apply one operation to a `Polygon` state. -/
def applyPolygonOp (P : Polygon) : GeomOp → Polygon
  | .rot degrees c s => Polygon.rotate P degrees c s
  | .flp c s => Polygon.flip P c s

/-- Apply one operation to a `Shape` state. -/
def applyShapeOp (P : Polygon) : GeomOp → Polygon
  | .rot degrees c s => Shape.rotate P degrees c s
  | .flp c s => Shape.flip P c s

/-- `PolygonPiece`: a polygon plus a 2-D position offset. -/
structure PolygonPiece where
  polygon : Polygon
  position : Point

instance : Inhabited PolygonPiece := ⟨⟨[], (0, 0)⟩⟩

/-- `PolygonPiece.get_points_in_plane`: every vertex translated by the
position. -/
def PolygonPiece.getPointsInPlane (piece : PolygonPiece) : List Point :=
  piece.polygon.map (fun p => (p.1 + piece.position.1, p.2 + piece.position.2))

/-- The external clipping capability behind `PolygonIntersector`.
Modelled from the spec: pyclipper is the out-of-scope external collaborator
(spec §1, §6), so it is abstracted by which paths its `AddPath` rejects
(raising `ClipperException`) and by what contour list `Execute` returns for
two accepted paths. -/
structure ClippingCapability where
  rejects : List Point → Bool
  execute : List Point → List Point → List (List Point)

/-- `PolygonIntersector._get_intersections`: `AddPath(subject)` guarded by a
try/except returning `[]`, then `AddPath(clip)` guarded the same way, then
`Execute(CT_INTERSECTION)`. -/
def getIntersections (C : ClippingCapability) (subject clip : List Point) :
    List (List Point) :=
  if C.rejects subject then []
  else if C.rejects clip then []
  else C.execute subject clip

/-- `PolygonIntersector.intersection_polygons`: wrap each resulting contour
in a `Polygon`. -/
def intersectionPolygonsOf (C : ClippingCapability) (subject clip : List Point) :
    List Polygon :=
  (getIntersections C subject clip).map Polygon.init

/-- The Coverage Engine consumes the gateway only through its
`intersection_polygons` function; `Level` is therefore parameterised by that
function. -/
abbrev Intersector := List Point → List Point → List Polygon

/-- `PolygonIntersector.intersection_area`: total area of the resulting
contours. -/
def intersectionArea (I : Intersector) (subject clip : List Point) : ℚ :=
  ((I subject clip).map Polygon.area).sum

/-- The body of the loop in `Level._get_pieces_skipping_these_indexes`,
walking `enumerate(self._pieces)` and keeping the pieces whose index is not
in `skip_indexes`. -/
def skipGo (skipIndexes : List ℕ) : ℕ → List PolygonPiece → List PolygonPiece
  | _, [] => []
  | i, piece :: rest =>
    if i ∈ skipIndexes then skipGo skipIndexes (i + 1) rest
    else piece :: skipGo skipIndexes (i + 1) rest

/-- `Level._get_pieces_skipping_these_indexes`. -/
def getPiecesSkippingTheseIndexes (pieces : List PolygonPiece)
    (skipIndexes : List ℕ) : List PolygonPiece :=
  skipGo skipIndexes 0 pieces

/-- `Level._sum_piece_areas`. -/
def sumPieceAreas (pieces : List PolygonPiece) : ℚ :=
  (pieces.map (fun p => Polygon.area p.polygon)).sum

/-- `Level._get_intersections_one_to_one`: intersect the two pieces'
plane-space contours, wrapping each resulting contour in a piece at
position `[0, 0]`. -/
def getIntersectionsOneToOne (I : Intersector) (subject clip : PolygonPiece) :
    List PolygonPiece :=
  (I subject.getPointsInPlane clip.getPointsInPlane).map
    (fun contour => ⟨contour, (0, 0)⟩)

/-- `Level._get_intersections_one_to_many`. -/
def getIntersectionsOneToMany (I : Intersector) (subject : PolygonPiece)
    (clips : List PolygonPiece) : List PolygonPiece :=
  clips.flatMap (fun clip => getIntersectionsOneToOne I subject clip)

/-- `Level._get_intersections_many_to_many`. -/
def getIntersectionsManyToMany (I : Intersector) (subjects clips : List PolygonPiece) :
    List PolygonPiece :=
  subjects.flatMap (fun subject => getIntersectionsOneToMany I subject clips)

/-- The loop of `Level.get_completion_percentage`: `i` is the enumeration
index of the current piece, `rest` the pieces not yet processed, `checked`
the accumulated `checked_piece_indexes`, `acc` the running `covered_area`. -/
def coveredGo (I : Intersector) (board : PolygonPiece)
    (allPieces : List PolygonPiece) :
    ℕ → List PolygonPiece → List ℕ → ℚ → ℚ
  | _, [], _, acc => acc
  | i, piece :: rest, checked, acc =>
    let boardIntersections := getIntersectionsOneToOne I board piece
    let checked2 := checked ++ [i]
    let acc2 := acc + sumPieceAreas boardIntersections
    let otherPieces := getPiecesSkippingTheseIndexes allPieces checked2
    let acc3 := acc2 - sumPieceAreas
      (getIntersectionsManyToMany I boardIntersections otherPieces)
    coveredGo I board allPieces (i + 1) rest checked2 acc3

/-- The final `covered_area` accumulated by `Level.get_completion_percentage`. -/
def coveredArea (I : Intersector) (board : PolygonPiece)
    (pieces : List PolygonPiece) : ℚ :=
  coveredGo I board pieces 0 pieces [] 0

/-- `Level.get_completion_percentage`: the accumulated covered area divided
by the board polygon's area, times 100, when positive; otherwise 0. -/
def getCompletionPercentage (I : Intersector) (board : PolygonPiece)
    (pieces : List PolygonPiece) : ℚ :=
  let covered := coveredArea I board pieces
  let boardArea := Polygon.area board.polygon
  if covered > 0 then covered / boardArea * 100 else 0

/-! ### Spec-side definitions

Each of the following definitions renders a claim's wording, to be compared
against the code-derived definitions above. -/

/-- The flip operation exactly as claim C3 words it: rotate by −90° about
the centroid, then reverse the vertex sequence end-to-end with each vertex
keeping its own coordinate pair, then subtract the new centroid from every
vertex, then re-normalise to quadrant one. -/
def flipAsClaimed (P : Polygon) (c s : ℚ) : Polygon :=
  let rotated := Polygon.rotate P (-90) c s
  let reversed := rotated.reverse
  let centroid := Polygon.getCentroidPoint reversed
  Polygon.moveToQuadrantOne (reversed.map (fun p => (p.1 - centroid.1, p.2 - centroid.2)))

/-- The flip operation as the counterexample to C3 forces it to be amended:
after the −90° rotation the point matrix is reversed end-to-end AND the two
coordinates of every vertex are exchanged (`numpy.flip` with no axis flips
both axes of the n×2 matrix); then the new centroid is subtracted and the
result re-normalised to quadrant one. -/
def flipAsAmended (P : Polygon) (c s : ℚ) : Polygon :=
  let rotated := Polygon.rotate P (-90) c s
  let reversed := (rotated.map Prod.swap).reverse
  let centroid := Polygon.getCentroidPoint reversed
  Polygon.moveToQuadrantOne (reversed.map (fun p => (p.1 - centroid.1, p.2 - centroid.2)))

/-- The shoelace sum as claim C8 words it:
`Σ x_i·y_{i-1} − Σ y_i·x_{i-1}` with wrap-around indexing, index −1 being
the last vertex. -/
def specShoelaceSum (P : Polygon) : ℚ :=
  (∑ i in Finset.range P.length,
    (P.getD i (0, 0)).1 * (P.getD ((i + P.length - 1) % P.length) (0, 0)).2)
  - ∑ i in Finset.range P.length,
    (P.getD i (0, 0)).2 * (P.getD ((i + P.length - 1) % P.length) (0, 0)).1

/-- Cross term of one cyclic vertex pair; `specShoelaceSum` is the sum of
these over the cyclically adjacent pairs. -/
def cross (p q : Point) : ℚ := p.1 * q.2 - p.2 * q.1

/-- Rotate a list one step the other way: the head moves to the back. -/
def rollBack {α : Type} : List α → List α
  | [] => []
  | a :: t => t ++ [a]

/-- The shoelace sum regrouped per cyclically adjacent vertex pair; the
stepping stone between the code's column formulation and the claim's
indexed formulation. -/
def cyclicCross (P : Polygon) : ℚ :=
  (List.zipWith cross P (roll1 P)).sum

/-- Claim C1's term `area(board ∩ piece_i)`: the intersected area the
gateway reports between the board and piece `i`, in plane space. -/
def specBoardPieceArea (I : Intersector) (board : PolygonPiece)
    (pieces : List PolygonPiece) (i : ℕ) : ℚ :=
  intersectionArea I board.getPointsInPlane
    ((pieces.getD i default).getPointsInPlane)

/-- Claim C1's term `area((board ∩ piece_i) ∩ piece_j)`: for every contour
of the board–piece `i` intersection, the gateway-reported area of its
intersection with piece `j`, summed. -/
def specPairOverlap (I : Intersector) (board : PolygonPiece)
    (pieces : List PolygonPiece) (i j : ℕ) : ℚ :=
  ((I board.getPointsInPlane ((pieces.getD i default).getPointsInPlane)).map
    (fun hit => intersectionArea I hit ((pieces.getD j default).getPointsInPlane))).sum

/-- The covered area exactly as claim C1 words it: the sum over `i` of
`area(board ∩ piece_i)`, minus the sum over the pairs `i < j` — each such
pair exactly once, no triple terms — of `area((board ∩ piece_i) ∩ piece_j)`. -/
def specCoveredArea (I : Intersector) (board : PolygonPiece)
    (pieces : List PolygonPiece) : ℚ :=
  ∑ i in Finset.range pieces.length,
    (specBoardPieceArea I board pieces i
      - ∑ j in Finset.Ico (i + 1) pieces.length, specPairOverlap I board pieces i j)

/-- Modelled from the spec: the geometric guarantee of the external clipping
capability, which is out of scope of the repository (spec §1, §6).  The
spec states the pairwise-corrected sum "under-counts true coverage" (first
order inclusion–exclusion, Bonferroni), so the accumulated covered area
never exceeds the area of the board polygon itself.  The code that would
decide this (pyclipper's clipping geometry) is not part of src/. -/
def CoverBound (I : Intersector) (board : PolygonPiece)
    (pieces : List PolygonPiece) : Prop :=
  coveredArea I board pieces ≤ Polygon.area board.polygon

/-! ### Helper lemmas -/

lemma foldl_min_le_init (l : List ℚ) (a : ℚ) : l.foldl min a ≤ a := by
  induction l generalizing a with
  | nil => simp
  | cons b t ih => exact le_trans (ih (min a b)) (min_le_left a b)

lemma foldl_min_le_mem : ∀ (l : List ℚ) (a x : ℚ), x ∈ l → l.foldl min a ≤ x := by
  intro l
  induction l with
  | nil => intro a x hx; cases hx
  | cons b t ih =>
    intro a x hx
    rcases List.mem_cons.mp hx with rfl | hx'
    · exact le_trans (foldl_min_le_init t (min a x)) (min_le_right a x)
    · exact ih (min a b) x hx'

lemma foldl_min_nonneg (l : List ℚ) (a : ℚ) (ha : 0 ≤ a)
    (hl : ∀ x ∈ l, 0 ≤ x) : 0 ≤ l.foldl min a := by
  induction l generalizing a with
  | nil => simpa
  | cons b t ih =>
    exact ih (min a b) (le_min ha (hl b (List.mem_cons_self b t)))
      (fun x hx => hl x (List.mem_cons_of_mem b hx))

lemma getPointMin_le {P : Polygon} {q : Point} (hq : q ∈ P) :
    (Polygon.getPointMin P).1 ≤ q.1 ∧ (Polygon.getPointMin P).2 ≤ q.2 := by
  cases P with
  | nil => cases hq
  | cons r rest =>
    constructor
    · show List.foldl (fun m p => min m p.1) r.1 rest ≤ q.1
      rw [← List.foldl_map Prod.fst min]
      rcases List.mem_cons.mp hq with rfl | hq'
      · exact foldl_min_le_init _ _
      · exact foldl_min_le_mem _ _ _ (List.mem_map_of_mem Prod.fst hq')
    · show List.foldl (fun m p => min m p.2) r.2 rest ≤ q.2
      rw [← List.foldl_map Prod.snd min]
      rcases List.mem_cons.mp hq with rfl | hq'
      · exact foldl_min_le_init _ _
      · exact foldl_min_le_mem _ _ _ (List.mem_map_of_mem Prod.snd hq')

lemma mem_moveToQuadrantOne {P : Polygon} {p : Point}
    (hp : p ∈ Polygon.moveToQuadrantOne P) : 0 ≤ p.1 ∧ 0 ≤ p.2 := by
  unfold Polygon.moveToQuadrantOne at hp
  rcases List.mem_map.mp hp with ⟨q, hq, rfl⟩
  have h1 := (getPointMin_le hq).1
  have h2 := (getPointMin_le hq).2
  constructor
  · by_cases hx : (Polygon.getPointMin P).1 ≥ 0
    · simp only [hx, if_pos]; linarith
    · simp only [hx, if_neg, not_false_iff]; linarith
  · by_cases hy : (Polygon.getPointMin P).2 ≥ 0
    · simp only [hy, if_pos]; linarith
    · simp only [hy, if_neg, not_false_iff]; linarith

lemma getPointMin_nonneg {P : Polygon} (h : ∀ p ∈ P, 0 ≤ p.1 ∧ 0 ≤ p.2) :
    0 ≤ (Polygon.getPointMin P).1 ∧ 0 ≤ (Polygon.getPointMin P).2 := by
  cases P with
  | nil => exact ⟨le_refl 0, le_refl 0⟩
  | cons r rest =>
    constructor
    · show 0 ≤ List.foldl (fun m p => min m p.1) r.1 rest
      rw [← List.foldl_map Prod.fst min]
      refine foldl_min_nonneg _ _ (h r (List.mem_cons_self r rest)).1 ?_
      intro x hx
      rcases List.mem_map.mp hx with ⟨q, hq, rfl⟩
      exact (h q (List.mem_cons_of_mem r hq)).1
    · show 0 ≤ List.foldl (fun m p => min m p.2) r.2 rest
      rw [← List.foldl_map Prod.snd min]
      refine foldl_min_nonneg _ _ (h r (List.mem_cons_self r rest)).2 ?_
      intro x hx
      rcases List.mem_map.mp hx with ⟨q, hq, rfl⟩
      exact (h q (List.mem_cons_of_mem r hq)).2

lemma moveToQuadrantOne_id {P : Polygon} (h : ∀ p ∈ P, 0 ≤ p.1 ∧ 0 ≤ p.2) :
    Polygon.moveToQuadrantOne P = P := by
  have hx := (getPointMin_nonneg h).1
  have hy := (getPointMin_nonneg h).2
  unfold Polygon.moveToQuadrantOne
  simp only [ge_iff_le, hx, hy, if_pos]
  have : ∀ p ∈ P, (p.1 + 0, p.2 + 0) = p := by intro p _; simp
  rw [List.map_congr_left this, List.map_id']

lemma rotation_guard_720 : Polygon.rotationResultSameAsCurrentState 720 = true := by
  unfold Polygon.rotationResultSameAsCurrentState
  rw [beq_iff_eq]
  norm_num

lemma rotation_guard_neg90 : Polygon.rotationResultSameAsCurrentState (-90) = false := by
  unfold Polygon.rotationResultSameAsCurrentState
  rw [beq_eq_false_iff_ne]
  norm_num

/-! ### Claim theorems -/

/-- Claim C7: for every polygon and every degree value `d` with
`d mod 360 == 0` — in particular `rotate(360*k)` for every integer `k` —
`rotate(d)` is a true no-op returning the point coordinates exactly
unchanged, with no floating-point drift from matrix math. -/
theorem rotate_multiple_of_360_is_noop (P : Polygon) (d c s : ℚ)
    (h : Polygon.rotationResultSameAsCurrentState d = true) :
    Polygon.rotate P d c s = P ∧
    ∀ k : ℤ, Polygon.rotate P (360 * k) c s = P := by
  constructor
  · simp [Polygon.rotate, h]
  · intro k
    have hk : Polygon.rotationResultSameAsCurrentState (360 * k) = true := by
      unfold Polygon.rotationResultSameAsCurrentState
      have : (360 * (k : ℚ)) / 360 = (k : ℚ) := by
        rw [mul_comm, mul_div_assoc]
        norm_num
      rw [this]
      simp [Rat.den_intCast]
    simp [Polygon.rotate, hk]

theorem rotate_multiple_of_360_is_noop_witness :
    Polygon.rotationResultSameAsCurrentState 720 = true ∧
    Polygon.rotate [((0 : ℚ), (0 : ℚ)), (2, 0), (0, 2)] 720 5 7 =
      [((0 : ℚ), (0 : ℚ)), (2, 0), (0, 2)] :=
  ⟨rotation_guard_720,
   (rotate_multiple_of_360_is_noop [((0 : ℚ), (0 : ℚ)), (2, 0), (0, 2)] 720 5 7
      rotation_guard_720).1⟩

/-- Claim C5 counterexample: constructing a polygon from a single point does
not fail — the point list is silently accepted and stored as the polygon's
state, so no `InvalidGeometry` error is possible. -/
theorem short_point_list_accepted :
    Polygon.init [((5 : ℚ), (7 : ℚ))] = [((5 : ℚ), (7 : ℚ))] ∧
    (Polygon.init [((5 : ℚ), (7 : ℚ))]).length < 3 :=
  ⟨rfl, by decide⟩

/-- Claim C5 amended: `Polygon.__init__` performs no validation at all —
a point list of fewer than 3 points (or any other list) is accepted
unchanged as the polygon's state; no `InvalidGeometry` error exists in the
code. -/
theorem construction_accepts_short_point_lists (points : List Point)
    (h : points.length < 3) : Polygon.init points = points := rfl

theorem construction_accepts_short_point_lists_witness :
    ([((5 : ℚ), (7 : ℚ)), (2, 9)] : List Point).length < 3 ∧
    Polygon.init [((5 : ℚ), (7 : ℚ)), (2, 9)] = [((5 : ℚ), (7 : ℚ)), (2, 9)] :=
  ⟨by decide, construction_accepts_short_point_lists _ (by decide)⟩

/-- Claim C6: whenever the external clipping capability rejects one of the
two input contours (raising `ClipperException` from `AddPath`),
`intersection_polygons` returns the empty list instead of propagating the
fault to the caller. -/
theorem clipping_rejection_yields_empty_list (C : ClippingCapability)
    (subject clip : List Point)
    (h : C.rejects subject = true ∨ C.rejects clip = true) :
    intersectionPolygonsOf C subject clip = [] := by
  rcases h with h | h
  · simp [intersectionPolygonsOf, getIntersections, h]
  · by_cases hs : C.rejects subject = true
    · simp [intersectionPolygonsOf, getIntersections, hs]
    · simp [intersectionPolygonsOf, getIntersections, hs, h]

theorem clipping_rejection_yields_empty_list_witness :
    (ClippingCapability.rejects ⟨fun _ => true, fun _ _ => [[((0 : ℚ), (0 : ℚ))]]⟩
        [((0 : ℚ), (0 : ℚ)), (1, 0), (0, 1)] = true ∨
      ClippingCapability.rejects ⟨fun _ => true, fun _ _ => [[((0 : ℚ), (0 : ℚ))]]⟩
        [((2 : ℚ), (0 : ℚ)), (3, 0), (2, 1)] = true) ∧
    intersectionPolygonsOf ⟨fun _ => true, fun _ _ => [[((0 : ℚ), (0 : ℚ))]]⟩
      [((0 : ℚ), (0 : ℚ)), (1, 0), (0, 1)] [((2 : ℚ), (0 : ℚ)), (3, 0), (2, 1)] = [] :=
  ⟨Or.inl rfl,
   clipping_rejection_yields_empty_list _ _ _ (Or.inl rfl)⟩

/-- Claim C4 counterexample: immediately after construction the quadrant-one
invariant does NOT hold — `Polygon.__init__` stores the points unchanged,
so a polygon constructed with a negative coordinate keeps it. -/
theorem quadrant_one_fails_at_construction :
    ¬ (∀ p ∈ Polygon.init [((-1 : ℚ), (0 : ℚ)), (0, 1), (1, 0)],
        0 ≤ p.1 ∧ 0 ≤ p.2) := by
  intro h
  have := (h ((-1 : ℚ), (0 : ℚ)) (List.mem_cons_self _ _)).1
  norm_num at this

/-- Claim C4 amended: after every `rotate` whose degree argument is not a
multiple of 360, and after every `flip`, every vertex coordinate is ≥ 0;
construction stores the points unchanged, and a no-op rotation
(`degrees mod 360 == 0`) returns before normalising, so neither
re-establishes the invariant. -/
theorem quadrant_one_after_effective_mutations (P : Polygon) (d c s : ℚ)
    (hd : Polygon.rotationResultSameAsCurrentState d = false) :
    (∀ p ∈ Polygon.rotate P d c s, 0 ≤ p.1 ∧ 0 ≤ p.2) ∧
    (∀ p ∈ Polygon.flip P c s, 0 ≤ p.1 ∧ 0 ≤ p.2) := by
  constructor
  · intro p hp
    rw [Polygon.rotate, if_neg (by simp [hd])] at hp
    exact mem_moveToQuadrantOne hp
  · intro p hp
    exact mem_moveToQuadrantOne hp

theorem quadrant_one_after_effective_mutations_witness :
    Polygon.rotationResultSameAsCurrentState (-90) = false ∧
    ((∀ p ∈ Polygon.rotate [((0 : ℚ), (0 : ℚ)), (1, 0), (0, 1)] (-90) 0 (-1),
        0 ≤ p.1 ∧ 0 ≤ p.2) ∧
      (∀ p ∈ Polygon.flip [((0 : ℚ), (0 : ℚ)), (1, 0), (0, 1)] 0 (-1),
        0 ≤ p.1 ∧ 0 ≤ p.2)) :=
  ⟨rotation_guard_neg90,
   quadrant_one_after_effective_mutations [((0 : ℚ), (0 : ℚ)), (1, 0), (0, 1)]
     (-90) 0 (-1) rotation_guard_neg90⟩

/-- Claim C3 counterexample: `flip()` does not merely reverse the vertex
sequence after the −90° rotation — `numpy.flip` also exchanges the two
coordinates of every vertex — so the steps the claim describes produce a
different point matrix on the 1×3 rectangle (with the exact cosine 0 and
sine −1 of −90°). -/
theorem flip_reverse_only_counterexample :
    flipAsClaimed [((0 : ℚ), (0 : ℚ)), (1, 0), (1, 3), (0, 3)] 0 (-1) ≠
    Polygon.flip [((0 : ℚ), (0 : ℚ)), (1, 0), (1, 3), (0, 3)] 0 (-1) := by
  norm_num [flipAsClaimed, Polygon.flip, Polygon.rotate, rotation_guard_neg90,
    Polygon.getRotatedPoints, Polygon.getCentroidPoint, Polygon.getPointSum,
    Polygon.getPointCount, Polygon.moveToQuadrantOne, Polygon.getPointMin,
    Polygon.numpyFlip]

/-- Claim C3 amended: `flip()` performs exactly these steps in order: rotate
by −90° about the centroid, then reverse the vertex sequence end-to-end AND
exchange the x and y coordinate of every vertex (`numpy.flip` over both
axes of the point matrix), then subtract the new centroid from every
vertex, then re-normalise to quadrant one. -/
theorem flip_reverses_and_swaps_coordinates (P : Polygon) (c s : ℚ) :
    Polygon.flip P c s = flipAsAmended P c s := by
  simp only [Polygon.flip, flipAsAmended, Polygon.numpyFlip, List.map_reverse]

/-- Claim C10: `Shape` (src/shape.py) and `Polygon` (src/polygon.py) share
the same rotate/flip logic, differing only in construction-time
normalisation, so from an all-non-negative starting point list the two
classes hold equal point matrices after construction and after every
subsequent sequence of rotate and flip operations. -/
theorem shape_refines_polygon (points : List Point) (ops : List GeomOp)
    (h : ∀ p ∈ points, 0 ≤ p.1 ∧ 0 ≤ p.2) :
    ops.foldl applyShapeOp (Shape.init points) =
    ops.foldl applyPolygonOp (Polygon.init points) := by
  have hinit : Shape.init points = Polygon.init points := moveToQuadrantOne_id h
  have hop : applyShapeOp = applyPolygonOp := by
    funext P op
    cases op <;> rfl
  rw [hinit, hop]

theorem shape_refines_polygon_witness :
    (∀ p ∈ ([((0 : ℚ), (0 : ℚ)), (1, 0), (0, 1)] : List Point),
      0 ≤ p.1 ∧ 0 ≤ p.2) ∧
    ([GeomOp.flp 0 (-1)].foldl applyShapeOp
        (Shape.init [((0 : ℚ), (0 : ℚ)), (1, 0), (0, 1)]) =
      [GeomOp.flp 0 (-1)].foldl applyPolygonOp
        (Polygon.init [((0 : ℚ), (0 : ℚ)), (1, 0), (0, 1)])) :=
  ⟨by intro p hp; fin_cases hp <;> norm_num,
   shape_refines_polygon [((0 : ℚ), (0 : ℚ)), (1, 0), (0, 1)]
     [GeomOp.flp 0 (-1)] (by intro p hp; fin_cases hp <;> norm_num)⟩

/-! ### Shoelace lemmas -/

lemma roll1_cons {α : Type} (a : α) (t : List α) :
    roll1 (a :: t) =
      (a :: t).getLast (List.cons_ne_nil a t) :: (a :: t).dropLast := by
  unfold roll1
  rw [List.getLast?_eq_getLast_of_ne_nil (List.cons_ne_nil a t)]

lemma roll1_length {α : Type} (l : List α) : (roll1 l).length = l.length := by
  cases l with
  | nil => rfl
  | cons a t => rw [roll1_cons]; simp

lemma roll1_map {α β : Type} (f : α → β) (l : List α) :
    roll1 (l.map f) = (roll1 l).map f := by
  unfold roll1
  rw [List.getLast?_map]
  cases h : l.getLast? with
  | none => simp
  | some a => simp [List.map_dropLast]

lemma roll1_getD {α : Type} (d : α) (l : List α) (i : ℕ) (hi : i < l.length) :
    (roll1 l).getD i d = l.getD ((i + l.length - 1) % l.length) d := by
  cases l with
  | nil => simp at hi
  | cons a t =>
    rw [roll1_cons]
    simp only [List.length_cons] at hi ⊢
    cases i with
    | zero =>
      have hn : (0 + (t.length + 1) - 1) % (t.length + 1) = t.length := by
        simp [Nat.mod_eq_of_lt]
      rw [hn, List.getD_cons_zero, List.getD_eq_getElem _ _
        (show t.length < (a :: t).length by simp), List.getLast_eq_getElem]
      exact getElem_congr (by simp)
    | succ j =>
      have hj : j < t.length := by omega
      have hn : (j + 1 + (t.length + 1) - 1) % (t.length + 1) = j := by
        have h1 : j + 1 + (t.length + 1) - 1 = j + (t.length + 1) := by omega
        rw [h1, Nat.add_mod_right, Nat.mod_eq_of_lt (by omega)]
      rw [hn, List.getD_cons_succ, List.getD_eq_getElem?_getD, List.getD_eq_getElem?_getD,
        List.getElem?_dropLast, if_pos (by simp; omega)]

lemma sum_zipWith_mul (a b : List ℚ) :
    (List.zipWith (· * ·) a b).sum =
      ∑ i in Finset.range a.length, a.getD i 0 * b.getD i 0 := by
  induction a generalizing b with
  | nil => simp
  | cons x xs ih =>
    cases b with
    | nil => simp
    | cons y ys =>
      rw [List.zipWith_cons_cons, List.sum_cons, ih ys, List.length_cons,
        Finset.sum_range_succ']
      simp only [List.getD_cons_succ, List.getD_cons_zero]
      ring

lemma getD_map_fst (P : Polygon) (i : ℕ) (hi : i < P.length) :
    (P.map Prod.fst).getD i 0 = (P.getD i (0, 0)).1 := by
  rw [List.getD_eq_getElem _ _ (by simpa using hi), List.getD_eq_getElem _ _ hi,
    List.getElem_map]

lemma getD_map_snd (P : Polygon) (i : ℕ) (hi : i < P.length) :
    (P.map Prod.snd).getD i 0 = (P.getD i (0, 0)).2 := by
  rw [List.getD_eq_getElem _ _ (by simpa using hi), List.getD_eq_getElem _ _ hi,
    List.getElem_map]

lemma area_eq_half_abs_specShoelace (P : Polygon) :
    Polygon.area P = (1 / 2 : ℚ) * |specShoelaceSum P| := by
  simp only [Polygon.area]
  rw [abs_mul, abs_of_pos (by norm_num : (0 : ℚ) < 1 / 2)]
  have hx : dotL (P.map Prod.fst) (roll1 (P.map Prod.snd)) =
      ∑ i in Finset.range P.length,
        (P.getD i (0, 0)).1 * (P.getD ((i + P.length - 1) % P.length) (0, 0)).2 := by
    unfold dotL
    rw [sum_zipWith_mul]
    simp only [List.length_map]
    refine Finset.sum_congr rfl ?_
    intro i hi
    have hi' : i < P.length := Finset.mem_range.mp hi
    have hm : (i + P.length - 1) % P.length < P.length :=
      Nat.mod_lt _ (by omega)
    rw [getD_map_fst P i hi', roll1_map, List.getD_eq_getElem?_getD,
      ← List.getD_eq_getElem?_getD]
    rw [show ((roll1 P).map Prod.snd).getD i 0 = ((roll1 P).getD i (0, 0)).2 from
      getD_map_snd (roll1 P) i (by rw [roll1_length]; exact hi')]
    rw [roll1_getD (0, 0) P i hi']
  have hy : dotL (P.map Prod.snd) (roll1 (P.map Prod.fst)) =
      ∑ i in Finset.range P.length,
        (P.getD i (0, 0)).2 * (P.getD ((i + P.length - 1) % P.length) (0, 0)).1 := by
    unfold dotL
    rw [sum_zipWith_mul]
    simp only [List.length_map]
    refine Finset.sum_congr rfl ?_
    intro i hi
    have hi' : i < P.length := Finset.mem_range.mp hi
    rw [getD_map_snd P i hi', roll1_map, List.getD_eq_getElem?_getD,
      ← List.getD_eq_getElem?_getD]
    rw [show ((roll1 P).map Prod.fst).getD i 0 = ((roll1 P).getD i (0, 0)).1 from
      getD_map_fst (roll1 P) i (by rw [roll1_length]; exact hi')]
    rw [roll1_getD (0, 0) P i hi']
  rw [hx, hy]
  rfl

lemma sum_zipWith_cross_sub (a b : List Point) :
    (List.zipWith (fun x y => x.1 * y.2) a b).sum -
      (List.zipWith (fun x y => x.2 * y.1) a b).sum =
      (List.zipWith cross a b).sum := by
  induction a generalizing b with
  | nil => simp
  | cons x xs ih =>
    cases b with
    | nil => simp
    | cons y ys =>
      simp only [List.zipWith_cons_cons, List.sum_cons, ← ih ys]
      unfold cross
      ring

lemma shoelace_eq_cyclicCross (P : Polygon) :
    dotL (P.map Prod.fst) (roll1 (P.map Prod.snd)) -
      dotL (P.map Prod.snd) (roll1 (P.map Prod.fst)) = cyclicCross P := by
  unfold dotL cyclicCross
  rw [roll1_map, roll1_map,
    List.zipWith_map (· * ·) Prod.fst Prod.snd P (roll1 P),
    List.zipWith_map (· * ·) Prod.snd Prod.fst P (roll1 P)]
  exact sum_zipWith_cross_sub P (roll1 P)

lemma rollBack_length {α : Type} (l : List α) : (rollBack l).length = l.length := by
  cases l <;> simp [rollBack]

lemma roll1_reverse {α : Type} (l : List α) :
    roll1 l.reverse = (rollBack l).reverse := by
  cases l with
  | nil => rfl
  | cons a t =>
    rw [List.reverse_cons]
    unfold roll1 rollBack
    rw [List.getLast?_concat]
    simp

lemma sum_zipWith_cross_anti (a b : List Point) :
    (List.zipWith cross a b).sum = -(List.zipWith cross b a).sum := by
  induction a generalizing b with
  | nil => cases b <;> simp
  | cons x xs ih =>
    cases b with
    | nil => simp
    | cons y ys =>
      rw [List.zipWith_cons_cons, List.zipWith_cons_cons, List.sum_cons,
        List.sum_cons, ih ys]
      unfold cross
      ring

lemma zipWith_cross_wrap (t : List Point) :
    ∀ a b : Point,
      (List.zipWith cross (t ++ [a]) (b :: t)).sum =
        cross a ((b :: t).getLast (List.cons_ne_nil b t)) +
          (List.zipWith cross t ((b :: t).dropLast)).sum := by
  induction t with
  | nil =>
    intro a b
    simp
  | cons c t' ih =>
    intro a b
    rw [List.cons_append, List.zipWith_cons_cons, List.sum_cons, ih a c,
      List.getLast_cons (List.cons_ne_nil c t'),
      show (b :: c :: t').dropLast = b :: (c :: t').dropLast from rfl,
      List.zipWith_cons_cons, List.sum_cons]
    ring

lemma zipWith_cross_rollBack (l : List Point) :
    (List.zipWith cross (rollBack l) l).sum = cyclicCross l := by
  cases l with
  | nil => rfl
  | cons a t =>
    unfold rollBack cyclicCross
    rw [roll1_cons, zipWith_cross_wrap t a a, List.zipWith_cons_cons, List.sum_cons]

lemma cyclicCross_reverse (l : Polygon) : cyclicCross l.reverse = -cyclicCross l := by
  unfold cyclicCross
  rw [roll1_reverse,
    ← List.reverse_zipWith (by rw [rollBack_length]),
    List.sum_reverse, sum_zipWith_cross_anti, zipWith_cross_rollBack]
  rfl

lemma area_reverse (P : Polygon) : Polygon.area P.reverse = Polygon.area P := by
  simp only [Polygon.area]
  rw [shoelace_eq_cyclicCross, shoelace_eq_cyclicCross, cyclicCross_reverse,
    mul_neg, abs_neg]

lemma area_nonneg (P : Polygon) : 0 ≤ Polygon.area P := by
  simp only [Polygon.area]
  exact abs_nonneg _

/-- Claim C8: for every polygon with at least 3 vertices, `area()` returns
half the absolute shoelace sum with wrap-around indexing (index −1 = last
vertex), is non-negative regardless of winding, is unchanged by reversing
the point order, and matches the closed-form values: unit square 1,
1×3 rectangle 3, right triangle with legs 2 area 2. -/
theorem area_shoelace_properties (P : Polygon) (h3 : 3 ≤ P.length) :
    Polygon.area P = (1 / 2 : ℚ) * |specShoelaceSum P| ∧
    0 ≤ Polygon.area P ∧
    Polygon.area P.reverse = Polygon.area P ∧
    Polygon.area [((0 : ℚ), (0 : ℚ)), (1, 0), (1, 1), (0, 1)] = 1 ∧
    Polygon.area [((0 : ℚ), (0 : ℚ)), (0, 3), (1, 3), (1, 0)] = 3 ∧
    Polygon.area [((1 : ℚ), (1 : ℚ)), (3, 3), (3, 1)] = 2 :=
  ⟨area_eq_half_abs_specShoelace P, area_nonneg P, area_reverse P,
   by norm_num [Polygon.area, dotL, roll1],
   by norm_num [Polygon.area, dotL, roll1],
   by norm_num [Polygon.area, dotL, roll1]⟩

theorem area_shoelace_properties_witness :
    3 ≤ ([((0 : ℚ), (0 : ℚ)), (1, 0), (1, 1), (0, 1)] : Polygon).length ∧
    Polygon.area [((0 : ℚ), (0 : ℚ)), (1, 0), (1, 1), (0, 1)] =
      (1 / 2 : ℚ) * |specShoelaceSum [((0 : ℚ), (0 : ℚ)), (1, 0), (1, 1), (0, 1)]| :=
  ⟨by decide,
   (area_shoelace_properties [((0 : ℚ), (0 : ℚ)), (1, 0), (1, 1), (0, 1)]
      (by decide)).1⟩

/-- Claim C9: `area()` is total on every non-empty point list, including the
degenerate 1- and 2-point lists that construction silently accepts; it
always returns a non-negative value, and exactly 0 for lists of 1 or 2
points. -/
theorem area_total_on_degenerate_lists (P : Polygon) (h : P ≠ []) :
    0 ≤ Polygon.area P ∧
    (∀ p : Point, Polygon.area [p] = 0) ∧
    ∀ p q : Point, Polygon.area [p, q] = 0 := by
  refine ⟨area_nonneg P, ?_, ?_⟩
  · intro p
    simp only [Polygon.area, List.map, dotL, roll1]
    rw [abs_eq_zero]
    simp
    ring
  · intro p q
    simp only [Polygon.area, List.map, dotL, roll1]
    rw [abs_eq_zero]
    simp
    ring

theorem area_total_on_degenerate_lists_witness :
    ([((2 : ℚ), (5 : ℚ))] : Polygon) ≠ [] ∧
    (0 ≤ Polygon.area [((2 : ℚ), (5 : ℚ))] ∧
      (∀ p : Point, Polygon.area [p] = 0) ∧
      ∀ p q : Point, Polygon.area [p, q] = 0) :=
  ⟨by decide, area_total_on_degenerate_lists [((2 : ℚ), (5 : ℚ))] (by decide)⟩

/-! ### Coverage engine lemmas -/

lemma skipGo_range (m : ℕ) : ∀ (rest : List PolygonPiece) (i : ℕ),
    skipGo (List.range m) i rest = rest.drop (m - i) := by
  intro rest
  induction rest with
  | nil => intro i; simp [skipGo]
  | cons p t ih =>
    intro i
    by_cases h : i < m
    · rw [skipGo, if_pos (List.mem_range.mpr h), ih (i + 1),
        show m - i = (m - (i + 1)) + 1 by omega, List.drop_succ_cons]
    · rw [skipGo, if_neg (fun hc => h (List.mem_range.mp hc)), ih (i + 1),
        show m - i = 0 by omega, show m - (i + 1) = 0 by omega]
      simp

lemma getPiecesSkipping_range (pieces : List PolygonPiece) (m : ℕ) :
    getPiecesSkippingTheseIndexes pieces (List.range m) = pieces.drop m := by
  unfold getPiecesSkippingTheseIndexes
  rw [skipGo_range]
  simp

lemma sumPieceAreas_append (a b : List PolygonPiece) :
    sumPieceAreas (a ++ b) = sumPieceAreas a + sumPieceAreas b := by
  simp [sumPieceAreas]

lemma sumPieceAreas_flatMap {α : Type} (l : List α) (f : α → List PolygonPiece) :
    sumPieceAreas (l.flatMap f) = (l.map (fun x => sumPieceAreas (f x))).sum := by
  induction l with
  | nil => simp [sumPieceAreas]
  | cons x xs ih => simp [List.flatMap_cons, sumPieceAreas_append, ih]

lemma plane_of_zero_position (contour : Polygon) :
    PolygonPiece.getPointsInPlane ⟨contour, (0, 0)⟩ = contour := by
  simp [PolygonPiece.getPointsInPlane]

lemma sumPieceAreas_oneToOne (I : Intersector) (subject clip : PolygonPiece) :
    sumPieceAreas (getIntersectionsOneToOne I subject clip) =
      intersectionArea I subject.getPointsInPlane clip.getPointsInPlane := by
  unfold sumPieceAreas getIntersectionsOneToOne intersectionArea
  rw [List.map_map]
  rfl

lemma map_sum_eq_sum_range {α : Type} (f : α → ℚ) (d : α) (l : List α) :
    (l.map f).sum = ∑ i in Finset.range l.length, f (l.getD i d) := by
  induction l with
  | nil => simp
  | cons x xs ih =>
    rw [List.map_cons, List.sum_cons, ih, List.length_cons, Finset.sum_range_succ']
    simp only [List.getD_cons_succ, List.getD_cons_zero]
    ring

lemma piece_map_sum_drop (f : PolygonPiece → ℚ) (l : List PolygonPiece) (s : ℕ) :
    ((l.drop s).map f).sum = ∑ j in Finset.Ico s l.length, f (l.getD j default) := by
  rw [map_sum_eq_sum_range f default (l.drop s), List.length_drop,
    Finset.sum_Ico_eq_sum_range]
  refine Finset.sum_congr rfl ?_
  intro i _
  congr 1
  rw [List.getD_eq_getElem?_getD, List.getD_eq_getElem?_getD, List.getElem?_drop]

lemma sumPieceAreas_oneToMany (I : Intersector) (s : PolygonPiece)
    (clips : List PolygonPiece) :
    sumPieceAreas (getIntersectionsOneToMany I s clips) =
      (clips.map (fun clip =>
        intersectionArea I s.getPointsInPlane clip.getPointsInPlane)).sum := by
  rw [getIntersectionsOneToMany, sumPieceAreas_flatMap]
  congr 1
  exact List.map_congr_left (fun clip _ => sumPieceAreas_oneToOne I s clip)

lemma sumPieceAreas_manyToMany (I : Intersector)
    (subjects clips : List PolygonPiece) :
    sumPieceAreas (getIntersectionsManyToMany I subjects clips) =
      (subjects.map (fun s => (clips.map (fun clip =>
        intersectionArea I s.getPointsInPlane clip.getPointsInPlane)).sum)).sum := by
  rw [getIntersectionsManyToMany, sumPieceAreas_flatMap]
  congr 1
  exact List.map_congr_left (fun s _ => sumPieceAreas_oneToMany I s clips)

lemma sum_map_finset_sum {α : Type} (l : List α) (F : Finset ℕ) (g : α → ℕ → ℚ) :
    (l.map (fun x => ∑ j in F, g x j)).sum = ∑ j in F, (l.map (fun x => g x j)).sum := by
  induction l with
  | nil => simp
  | cons x xs ih => simp [ih, Finset.sum_add_distrib]

lemma coveredGo_spec (I : Intersector) (board : PolygonPiece)
    (all : List PolygonPiece) :
    ∀ (rest : List PolygonPiece) (i : ℕ) (acc : ℚ), all.drop i = rest →
      coveredGo I board all i rest (List.range i) acc =
        acc + ∑ k in Finset.Ico i all.length,
          (specBoardPieceArea I board all k -
            ∑ j in Finset.Ico (k + 1) all.length, specPairOverlap I board all k j) := by
  intro rest
  induction rest with
  | nil =>
    intro i acc hdrop
    have hlen : all.length ≤ i := List.drop_eq_nil_iff.mp hdrop
    rw [coveredGo, Finset.Ico_eq_empty (by omega), Finset.sum_empty, add_zero]
  | cons p t ih =>
    intro i acc hdrop
    have hi : i < all.length := by
      by_contra hc
      push_neg at hc
      rw [List.drop_eq_nil_of_le hc] at hdrop
      simp at hdrop
    have hp : all.getD i default = p := by
      have h0 := List.getElem?_drop all i 0
      rw [hdrop] at h0
      simp only [List.getElem?_cons_zero, Nat.add_zero] at h0
      rw [List.getD_eq_getElem?_getD, ← h0, Option.getD_some]
    have ht : all.drop (i + 1) = t := by
      have h1 := List.drop_drop 1 i all
      rw [hdrop] at h1
      simpa using h1.symm
    have ha : sumPieceAreas (getIntersectionsOneToOne I board p) =
        specBoardPieceArea I board all i := by
      simp only [specBoardPieceArea, hp, sumPieceAreas_oneToOne]
    have hb : sumPieceAreas (getIntersectionsManyToMany I
          (getIntersectionsOneToOne I board p) (all.drop (i + 1))) =
        ∑ j in Finset.Ico (i + 1) all.length, specPairOverlap I board all i j := by
      rw [sumPieceAreas_manyToMany, getIntersectionsOneToOne, List.map_map]
      rw [List.map_congr_left (fun c _ => by
        simp only [Function.comp_apply, plane_of_zero_position] :
        ∀ c ∈ I board.getPointsInPlane p.getPointsInPlane,
          ((fun s : PolygonPiece => ((all.drop (i + 1)).map (fun clip =>
              intersectionArea I s.getPointsInPlane clip.getPointsInPlane)).sum) ∘
            fun contour => (⟨contour, (0, 0)⟩ : PolygonPiece)) c =
            ((all.drop (i + 1)).map (fun clip =>
              intersectionArea I c clip.getPointsInPlane)).sum)]
      simp only [piece_map_sum_drop]
      rw [sum_map_finset_sum]
      simp only [specPairOverlap, hp]
    simp only [coveredGo]
    rw [← List.range_succ, ih (i + 1) _ ht, getPiecesSkipping_range, ht, ha,
      ← ht, hb, Finset.sum_eq_sum_Ico_succ_bot hi]
    ring

/-- Claim C1: `get_completion_percentage` computes
`covered = Σ_i area(board ∩ piece_i) − Σ_{i<j} area((board ∩ piece_i) ∩ piece_j)`,
with exactly the `j > i` pairs each considered once and no triple terms, and
returns `covered / area(board) × 100` when `covered > 0` and 0 otherwise. -/
theorem completion_matches_pairwise_formula (I : Intersector)
    (board : PolygonPiece) (pieces : List PolygonPiece) :
    coveredArea I board pieces = specCoveredArea I board pieces ∧
    getCompletionPercentage I board pieces =
      (if specCoveredArea I board pieces > 0
        then specCoveredArea I board pieces / Polygon.area board.polygon * 100
        else 0) := by
  have h := coveredGo_spec I board pieces pieces 0 0 rfl
  have hc : coveredArea I board pieces = specCoveredArea I board pieces := by
    rw [coveredArea, show ([] : List ℕ) = List.range 0 from rfl, h, zero_add,
      specCoveredArea, Finset.range_eq_Ico]
  exact ⟨hc, by simp only [getCompletionPercentage]; rw [hc]⟩

/-- Claim C2: for a board polygon of positive area and under the external
clipping capability's Bonferroni under-approximation guarantee
(`CoverBound`), `get_completion_percentage` returns a value in `[0, 100]`;
with zero pieces it returns exactly 0 without evaluating the division, and
whenever the accumulated covered value is ≤ 0 the result is 0, never
negative. -/
theorem completion_percentage_in_range (I : Intersector) (board : PolygonPiece)
    (pieces : List PolygonPiece) (hpos : 0 < Polygon.area board.polygon)
    (hbound : CoverBound I board pieces) :
    (0 ≤ getCompletionPercentage I board pieces ∧
      getCompletionPercentage I board pieces ≤ 100) ∧
    getCompletionPercentage I board [] = 0 ∧
    (coveredArea I board pieces ≤ 0 → getCompletionPercentage I board pieces = 0) := by
  unfold CoverBound at hbound
  refine ⟨⟨?_, ?_⟩, ?_, ?_⟩
  · simp only [getCompletionPercentage]
    split
    · next hgt =>
      exact mul_nonneg (div_nonneg (le_of_lt hgt) (le_of_lt hpos)) (by norm_num)
    · exact le_refl 0
  · simp only [getCompletionPercentage]
    split
    · next hgt =>
      calc coveredArea I board pieces / Polygon.area board.polygon * 100
          ≤ 1 * 100 :=
            mul_le_mul_of_nonneg_right ((div_le_one hpos).mpr hbound) (by norm_num)
        _ = 100 := one_mul 100
    · norm_num
  · simp only [getCompletionPercentage]
    rw [show coveredArea I board ([] : List PolygonPiece) = 0 from rfl]
    norm_num
  · intro hle
    simp only [getCompletionPercentage]
    rw [if_neg (not_lt.mpr hle)]

theorem completion_percentage_in_range_witness :
    0 < Polygon.area (PolygonPiece.polygon ⟨[((0 : ℚ), (0 : ℚ)), (4, 0), (0, 4)], (0, 0)⟩) ∧
    CoverBound (fun _ _ => []) ⟨[((0 : ℚ), (0 : ℚ)), (4, 0), (0, 4)], (0, 0)⟩ [] ∧
    ((0 ≤ getCompletionPercentage (fun _ _ => [])
        ⟨[((0 : ℚ), (0 : ℚ)), (4, 0), (0, 4)], (0, 0)⟩ [] ∧
      getCompletionPercentage (fun _ _ => [])
        ⟨[((0 : ℚ), (0 : ℚ)), (4, 0), (0, 4)], (0, 0)⟩ [] ≤ 100) ∧
    getCompletionPercentage (fun _ _ => [])
        ⟨[((0 : ℚ), (0 : ℚ)), (4, 0), (0, 4)], (0, 0)⟩ [] = 0 ∧
    (coveredArea (fun _ _ => []) ⟨[((0 : ℚ), (0 : ℚ)), (4, 0), (0, 4)], (0, 0)⟩ [] ≤ 0 →
      getCompletionPercentage (fun _ _ => [])
        ⟨[((0 : ℚ), (0 : ℚ)), (4, 0), (0, 4)], (0, 0)⟩ [] = 0)) := by
  have hpos : 0 < Polygon.area [((0 : ℚ), (0 : ℚ)), (4, 0), (0, 4)] := by
    norm_num [Polygon.area, dotL, roll1]
  have hb : CoverBound (fun _ _ => [])
      ⟨[((0 : ℚ), (0 : ℚ)), (4, 0), (0, 4)], (0, 0)⟩ [] := by
    unfold CoverBound
    rw [show coveredArea (fun _ _ => [])
        ⟨[((0 : ℚ), (0 : ℚ)), (4, 0), (0, 4)], (0, 0)⟩ [] = 0 from rfl]
    exact le_of_lt hpos
  exact ⟨hpos, hb, completion_percentage_in_range _ _ _ hpos hb⟩

end ShapeAligner
